import Mathlib

/-!
Verification of the HTTPie command-line client (src/main.rs).

Strings are modelled as `List Char` (`Str`), matching Rust's `&str` at the
character level (all separators involved are ASCII).  Fallible Rust code
(`Result`, panicking `unwrap`) is modelled with `Option`: `none` is a parse
failure or a fatal panic, as noted at each definition.
-/

abbrev Str := List Char

/-- Helper for `splitOn`: prepend a character to the first segment of a
segment list (a fresh singleton segment when the list is empty). -/
def consHead (c : Char) : List Str → List Str
  | [] => [[c]]
  | s :: ss => (c :: s) :: ss

/-- Embedding of Rust `str::split` with the one-character pattern `sep`
(as used by `KVPair::from_str` with pattern `"="`): the list of maximal
segments between occurrences of `sep`.  Like Rust's iterator, it always
yields at least one segment (`splitOn sep [] = [[]]`). -/
def splitOn (sep : Char) : Str → List Str
  | [] => [[]]
  | c :: rest =>
    if c = sep then [] :: splitOn sep rest
    else consHead c (splitOn sep rest)

/-- Embedding of `struct KVPair { k: String, v: String }` from src/main.rs. -/
structure KVPair where
  k : Str
  v : Str
deriving DecidableEq, Repr

/-- Embedding of `impl FromStr for KVPair` (src/main.rs): split the token on
`"="` and take the first two items of the iterator; `none` models the
`anyhow!` parse error raised when the second `next()` yields nothing. -/
def KVPair.from_str (s : Str) : Option KVPair :=
  match splitOn '=' s with
  | k :: v :: _ => some ⟨k, v⟩
  | _ => none

/-- Embedding of `parse_kv_pair` (src/main.rs), a thin wrapper over
`KVPair::from_str`. -/
def parse_kv_pair (s : Str) : Option KVPair :=
  KVPair.from_str s

theorem consHead_ne_nil (c : Char) (l : List Str) : consHead c l ≠ [] := by
  cases l <;> simp [consHead]

theorem splitOn_ne_nil (sep : Char) (l : Str) : splitOn sep l ≠ [] := by
  induction l with
  | nil => simp [splitOn]
  | cons c rest ih =>
    by_cases h : c = sep
    · simp [splitOn, h]
    · simpa [splitOn, h] using consHead_ne_nil c (splitOn sep rest)

theorem splitOn_of_not_mem {sep : Char} {l : Str} (h : sep ∉ l) :
    splitOn sep l = [l] := by
  induction l with
  | nil => rfl
  | cons c rest ih =>
    have hc : c ≠ sep := fun hcs => h (hcs ▸ List.mem_cons_self c rest)
    have hrest : sep ∉ rest := fun hm => h (List.mem_cons_of_mem c hm)
    simp [splitOn, hc, ih hrest, consHead]

theorem splitOn_append {sep : Char} {k : Str} (rest : Str) (h : sep ∉ k) :
    splitOn sep (k ++ sep :: rest) = k :: splitOn sep rest := by
  induction k with
  | nil => simp [splitOn]
  | cons c cs ih =>
    have hc : c ≠ sep := fun hcs => h (hcs ▸ List.mem_cons_self c cs)
    have hcs : sep ∉ cs := fun hm => h (List.mem_cons_of_mem c hm)
    simp [splitOn, hc, ih hcs, consHead]

theorem splitOn_headI (sep : Char) (l : Str) :
    (splitOn sep l).headI = l.takeWhile (fun c => c ≠ sep) := by
  induction l with
  | nil => simp [splitOn]
  | cons c rest ih =>
    by_cases h : c = sep
    · simp [splitOn, h, List.takeWhile]
    · obtain ⟨s, ss, hss⟩ := List.exists_cons_of_ne_nil (splitOn_ne_nil sep rest)
      simp only [splitOn, if_neg h, hss, consHead, List.headI, List.takeWhile]
      simp only [hss, List.headI] at ih
      simp [h, ih]

theorem splitOn_segments_free {sep : Char} {l : Str} {t : Str}
    (ht : t ∈ splitOn sep l) : sep ∉ t := by
  induction l generalizing t with
  | nil =>
    simp only [splitOn, List.mem_singleton] at ht
    simp [ht]
  | cons c rest ih =>
    by_cases h : c = sep
    · simp only [splitOn, if_pos h, List.mem_cons] at ht
      rcases ht with ht | ht
      · simp [ht]
      · exact ih ht
    · obtain ⟨s, ss, hss⟩ := List.exists_cons_of_ne_nil (splitOn_ne_nil sep rest)
      simp only [splitOn, if_neg h, hss, consHead, List.mem_cons] at ht
      rcases ht with ht | ht
      · subst ht
        intro hmem
        rcases List.mem_cons.mp hmem with hc | hc
        · exact h hc.symm
        · exact ih (hss ▸ List.mem_cons_self s ss) hc
      · exact ih (hss ▸ List.mem_cons_of_mem s ht)

/-- Inversion for a successful KV-pair parse: the split of the token starts
with the returned key and value. -/
theorem from_str_eq_some {s : Str} {p : KVPair}
    (h : KVPair.from_str s = some p) :
    ∃ rest, splitOn '=' s = p.k :: p.v :: rest := by
  unfold KVPair.from_str at h
  rcases hs : splitOn '=' s with _ | ⟨a, _ | ⟨b, u⟩⟩ <;> rw [hs] at h
  · simp at h
  · simp at h
  · simp only [Option.some.injEq] at h
    exact ⟨u, by rw [← h]⟩

/-- Claim C3: for every string with no `=` character, KV-pair parsing fails with a
parse error and produces no pair. -/
theorem kv_parse_no_eq_fails (s : Str) (h : '=' ∉ s) :
    KVPair.from_str s = none := by
  simp [KVPair.from_str, splitOn_of_not_mem h]

/-- Witness for `kv_parse_no_eq_fails` at the token `"a"`. -/
theorem kv_parse_no_eq_fails_witness :
    KVPair.from_str "a".data = none :=
  kv_parse_no_eq_fails "a".data (by decide)

/-- Claim C2: for all `=`-free strings `k` and `v`, parsing `k ++ "=" ++ v`
succeeds with key `k` and value `v`; in particular `"b="` parses to key
`"b"` and the empty value. -/
theorem kv_parse_concat (k v : Str) (hk : '=' ∉ k) (hv : '=' ∉ v) :
    KVPair.from_str (k ++ '=' :: v) = some ⟨k, v⟩ ∧
    KVPair.from_str "b=".data = some ⟨"b".data, []⟩ := by
  constructor
  · simp [KVPair.from_str, splitOn_append v hk, splitOn_of_not_mem hv]
  · decide

/-- Witness for `kv_parse_concat` at `k = "a"`, `v = "1"`. -/
theorem kv_parse_concat_witness :
    KVPair.from_str ("a".data ++ '=' :: "1".data) = some ⟨"a".data, "1".data⟩ ∧
    KVPair.from_str "b=".data = some ⟨"b".data, []⟩ :=
  kv_parse_concat "a".data "1".data (by decide) (by decide)

/-- Claim C4: a token with two or more `=` characters parses successfully to the
first two segments, silently dropping everything after the second `=`. -/
theorem kv_parse_two_eq (a b c : Str) (ha : '=' ∉ a) (hb : '=' ∉ b) :
    KVPair.from_str (a ++ '=' :: (b ++ '=' :: c)) = some ⟨a, b⟩ := by
  simp [KVPair.from_str, splitOn_append (b ++ '=' :: c) ha, splitOn_append c hb]

/-- Witness for `kv_parse_two_eq` at the token `"a=1=2"`. -/
theorem kv_parse_two_eq_witness :
    KVPair.from_str ("a".data ++ '=' :: ("1".data ++ '=' :: "2".data)) =
      some ⟨"a".data, "1".data⟩ :=
  kv_parse_two_eq "a".data "1".data "2".data (by decide) (by decide)

/-- Claim C9: a successful KV-pair parse yields an empty key only when the token
begins with `=`; and every token `=` followed by an `=`-free value parses to
the empty key and that value. -/
theorem kv_parse_empty_key (s v : Str) :
    (∀ p : KVPair, KVPair.from_str s = some p → p.k = [] →
      ∃ rest, s = '=' :: rest) ∧
    ('=' ∉ v → KVPair.from_str ('=' :: v) = some ⟨[], v⟩) := by
  constructor
  · intro p hp hk
    obtain ⟨rest, hs⟩ := from_str_eq_some hp
    have hhead : (splitOn '=' s).headI = s.takeWhile (fun c => c ≠ '=') :=
      splitOn_headI '=' s
    rw [hs, hk] at hhead
    cases s with
    | nil => exact absurd hp (by simp [KVPair.from_str, splitOn])
    | cons c t =>
      by_cases hc : c = '='
      · exact ⟨t, by rw [hc]⟩
      · simp [List.takeWhile, hc] at hhead
  · intro hv
    have h1 : splitOn '=' ('=' :: v) = [] :: splitOn '=' v := by
      simp [splitOn]
    simp [KVPair.from_str, h1, splitOn_of_not_mem hv]

/-- Witness for `kv_parse_empty_key` at the token `"=v"`. -/
theorem kv_parse_empty_key_witness :
    KVPair.from_str ('=' :: "v".data) = some ⟨[], "v".data⟩ ∧
    ∃ rest, ('=' :: "v".data : Str) = '=' :: rest := by
  have h := (kv_parse_empty_key ('=' :: "v".data) "v".data).2 (by decide)
  exact ⟨h, (kv_parse_empty_key ('=' :: "v".data) "v".data).1 ⟨[], "v".data⟩ h rfl⟩

/-- Claim C10: for every token on which KV-pair parsing succeeds, neither the
returned key nor the returned value contains a `=` character. -/
theorem kv_parse_segments (s : Str) (p : KVPair)
    (h : KVPair.from_str s = some p) : '=' ∉ p.k ∧ '=' ∉ p.v := by
  obtain ⟨rest, hs⟩ := from_str_eq_some h
  constructor
  · exact splitOn_segments_free (hs ▸ List.mem_cons_self _ _)
  · exact splitOn_segments_free
      (hs ▸ List.mem_cons_of_mem _ (List.mem_cons_self _ _))

/-- Witness for `kv_parse_segments` at the token `"a=1"`. -/
theorem kv_parse_segments_witness :
    '=' ∉ ("a".data : Str) ∧ '=' ∉ ("1".data : Str) :=
  kv_parse_segments "a=1".data ⟨"a".data, "1".data⟩ (by decide)

/-- Embedding of the body-building loop of `post` (src/main.rs): the parsed
pairs are inserted one by one into a fresh `HashMap`; the map is modelled
extensionally as its lookup function, with `insert` as pointwise update. -/
def buildBody (pairs : List KVPair) : Str → Option Str :=
  pairs.foldl
    (fun m p => fun key => if key = p.k then some p.v else m key)
    (fun _ => none)

/-- Folding pairs none of which carry `key` leaves the map unchanged at
`key`. -/
theorem buildBody_skip (l : List KVPair) (m : Str → Option Str) (key : Str)
    (h : ∀ p ∈ l, p.k ≠ key) :
    (l.foldl (fun m p => fun key2 => if key2 = p.k then some p.v else m key2)
      m) key = m key := by
  induction l generalizing m with
  | nil => rfl
  | cons p ps ih =>
    simp only [List.foldl_cons]
    rw [ih _ (fun q hq => h q (List.mem_cons_of_mem p hq))]
    exact if_neg (fun hk => h p (List.mem_cons_self p ps) hk.symm)

/-- Claim C5: when the POST body is built from a sequence of KV pairs, a later
pair with the same key overwrites an earlier one: the resulting map binds a
key to the value of the last pair carrying it. -/
theorem post_body_last_wins (pre rest : List KVPair) (key val : Str)
    (h : ∀ p ∈ rest, p.k ≠ key) :
    buildBody (pre ++ ⟨key, val⟩ :: rest) key = some val := by
  unfold buildBody
  rw [List.foldl_append, List.foldl_cons,
    buildBody_skip rest _ key h]
  simp

/-- Witness for `post_body_last_wins`: with pairs `a=1` then `a=2`, the body
maps `a` to `2`. -/
theorem post_body_last_wins_witness :
    buildBody ([⟨"a".data, "1".data⟩] ++ ⟨"a".data, "2".data⟩ :: [])
      "a".data = some "2".data :=
  post_body_last_wins [⟨"a".data, "1".data⟩] [] "a".data "2".data
    (by simp)

def isSchemeChar (c : Char) : Bool :=
  c.isAlphanum || c = '+' || c = '-' || c = '.'

/-- Split a string at the first occurrence of `sep`: `none` when `sep` does
not occur. -/
def splitOnFirst (sep : Char) : Str → Option (Str × Str)
  | [] => none
  | c :: rest =>
    if c = sep then some ([], rest)
    else (splitOnFirst sep rest).map (fun p => (c :: p.1, p.2))

/-- Modelled from the spec: the URL syntax check done inside `parse_url`
(src/main.rs) by `s.parse::<Url>()` belongs to the external `url` crate and
is not part of this repository's sources.  Per the spec, a token is accepted
exactly when it is a syntactically valid absolute URL with at least a scheme
and an authority component: a nonempty scheme (a letter followed by scheme
characters), then `"://"`, then a nonempty authority. -/
def urlValid (s : Str) : Bool :=
  match splitOnFirst ':' s with
  | none => false
  | some (scheme, rest) =>
    (match scheme with
     | [] => false
     | c :: cs => c.isAlpha && cs.all isSchemeChar)
    &&
    (match rest with
     | '/' :: '/' :: tail => !(tail.takeWhile (fun c => c != '/')).isEmpty
     | _ => false)

/-- Embedding of `parse_url` (src/main.rs): validate the token (via the
spec-modelled `urlValid`) and on success return the original token
(`Ok(s.into())`). -/
def parse_url (s : Str) : Option Str :=
  if urlValid s then some s else none

/-- Claim C6: URL validation fails on every token that is not a syntactically
valid absolute URL; in particular it rejects `"abc"` and accepts
`"http://abc.xyz"` and `"https://httpbin.org/post"`. -/
theorem parse_url_validation :
    (∀ s : Str, urlValid s = false → parse_url s = none) ∧
    parse_url "abc".data = none ∧
    parse_url "http://abc.xyz".data = some "http://abc.xyz".data ∧
    parse_url "https://httpbin.org/post".data =
      some "https://httpbin.org/post".data := by
  refine ⟨fun s h => by simp [parse_url, h], by decide, by decide, by decide⟩

/-- Witness for `parse_url_validation` at the token `"abc"`. -/
theorem parse_url_validation_witness :
    urlValid "abc".data = false ∧ parse_url "abc".data = none :=
  ⟨by decide, parse_url_validation.1 "abc".data (by decide)⟩

/-- Claim C7: on every accepted token, URL validation returns the input
unchanged (identity on accepted inputs, no normalization). -/
theorem parse_url_identity (s r : Str) (h : parse_url s = some r) : r = s := by
  unfold parse_url at h
  by_cases hv : urlValid s = true
  · rw [if_pos hv] at h
    exact (Option.some_inj.mp h).symm
  · rw [if_neg hv] at h
    cases h

/-- Witness for `parse_url_identity` at the token `"http://abc.xyz"`. -/
theorem parse_url_identity_witness :
    parse_url "http://abc.xyz".data = some "http://abc.xyz".data ∧
    "http://abc.xyz".data = "http://abc.xyz".data := by
  have h : parse_url "http://abc.xyz".data = some "http://abc.xyz".data := by
    decide
  exact ⟨h, parse_url_identity _ _ h⟩

/-- Spec-modelled MIME type (the external `mime` crate is not part of this
repository's sources): the essence `type/subtype` (lowercased) and the raw
parameter section of the header value. -/
structure Mime where
  essence : Str
  params : Str
deriving DecidableEq, Repr

def isTokenChar (c : Char) : Bool :=
  c.isAlphanum || c = '-' || c = '+' || c = '.' || c = '_'

/-- Modelled from the spec: parsing a `Content-Type` header value as a MIME
type (done in `get_content_type`, src/main.rs, by `.parse()` from the
external `mime` crate).  The value splits into `type/subtype` and an
optional `;`-led parameter section; parsing fails (`none`) unless type and
subtype are nonempty token strings; the essence is lowercased. -/
def parseMime (v : Str) : Option Mime :=
  let main := v.takeWhile (fun c => c != ';')
  let ps := v.dropWhile (fun c => c != ';')
  match splitOnFirst '/' main with
  | none => none
  | some (t, sub) =>
    if t.isEmpty || sub.isEmpty ||
        !(t.all isTokenChar) || !(sub.all isTokenChar) then
      none
    else
      some ⟨(t.map Char.toLower) ++ '/' :: (sub.map Char.toLower), ps⟩

/-- Modelled from the spec: the comparison `v == APPLICATION_JSON` in
`print_body` (src/main.rs); per the spec it holds exactly when the MIME
type's essence is `application/json`. -/
def mimeIsAppJson (m : Mime) : Bool :=
  m.essence == "application/json".data

/-- Response headers are (name, value) pairs in receipt order; this is
`HeaderMap::get`, matching names case-insensitively as `reqwest` does. -/
def headerGet (name : Str) (headers : List (Str × Str)) : Option Str :=
  (headers.find? (fun h => h.1.map Char.toLower == name)).map Prod.snd

/-- Embedding of `get_content_type` (src/main.rs): look up the
`Content-Type` header and parse its value as a MIME type.  The outer `none`
models the `unwrap()` panic when a present value fails to parse;
`some none` is the absent-header case; `some (some m)` a parsed MIME
type. -/
def get_content_type (headers : List (Str × Str)) : Option (Option Mime) :=
  match headerGet "content-type".data headers with
  | none => some none
  | some v =>
    match parseMime v with
    | some m => some (some m)
    | none => none

/-- Embedding of `print_body` (src/main.rs).  The JSON pretty-printer
`jsonxf::pretty_print` is an external crate passed as the parameter `pp`;
`pp body = none` models its error, which `unwrap()` turns into a panic.
The result `some out` is the text printed, `none` a fatal panic. -/
def print_body (pp : Str → Option Str) (m : Option Mime) (body : Str) :
    Option Str :=
  match m with
  | some v => if mimeIsAppJson v then pp body else some body
  | none => some body

/-- Embedding of the body-rendering pipeline of `print_resp` (src/main.rs):
`get_content_type` followed by `print_body`; `none` is a fatal abort of the
run, `some out` the body text emitted. -/
def render_body (pp : Str → Option Str) (headers : List (Str × Str))
    (body : Str) : Option Str :=
  match get_content_type headers with
  | none => none
  | some m => print_body pp m body

/-- Claim C1: when the Content-Type header parses to a MIME type whose
essence is `application/json`, the renderer emits the pretty-printed
(re-indented) body, i.e. exactly the pretty-printer's result; for a parsed
MIME type with any other essence, and when no Content-Type header is
present, it emits the body text unmodified. -/
theorem render_body_json_dispatch (pp : Str → Option Str)
    (headers : List (Str × Str)) (body : Str) :
    (∀ m : Mime, get_content_type headers = some (some m) →
      mimeIsAppJson m = true → render_body pp headers body = pp body) ∧
    (∀ m : Mime, get_content_type headers = some (some m) →
      mimeIsAppJson m = false → render_body pp headers body = some body) ∧
    (get_content_type headers = some none →
      render_body pp headers body = some body) := by
  refine ⟨fun m hm hj => ?_, fun m hm hj => ?_, fun hm => ?_⟩
  · simp [render_body, hm, print_body, hj]
  · simp [render_body, hm, print_body, hj]
  · simp [render_body, hm, print_body]

/-- Witness for `render_body_json_dispatch`: a JSON content type makes the
renderer emit the pretty-printer's output. -/
theorem render_body_json_dispatch_witness :
    get_content_type [("Content-Type".data, "application/json".data)] =
      some (some ⟨"application/json".data, []⟩) ∧
    mimeIsAppJson ⟨"application/json".data, []⟩ = true ∧
    render_body (fun b => some (' ' :: b))
      [("Content-Type".data, "application/json".data)] "x".data =
      (fun (b : Str) => some (' ' :: b)) "x".data :=
  ⟨by decide, by decide,
    (render_body_json_dispatch (fun b => some (' ' :: b))
      [("Content-Type".data, "application/json".data)] "x".data).1
      ⟨"application/json".data, []⟩ (by decide) (by decide)⟩

/-- Claim C8: if the Content-Type header is present but its value fails to
parse as a MIME type, or the body fails pretty-printing when the JSON
content type was detected, rendering aborts fatally (`none`) — it never
falls back to emitting the raw body. -/
theorem render_body_fatal (pp : Str → Option Str)
    (headers : List (Str × Str)) (body : Str) :
    (∀ v : Str, headerGet "content-type".data headers = some v →
      parseMime v = none → render_body pp headers body = none) ∧
    (∀ m : Mime, get_content_type headers = some (some m) →
      mimeIsAppJson m = true → pp body = none →
      render_body pp headers body = none) := by
  constructor
  · intro v hv hparse
    simp [render_body, get_content_type, hv, hparse]
  · intro m hm hj hpp
    simp [render_body, hm, print_body, hj, hpp]

/-- Witness for `render_body_fatal`: an unparsable Content-Type value
aborts, and a JSON body that fails pretty-printing aborts. -/
theorem render_body_fatal_witness :
    (headerGet "content-type".data [("Content-Type".data, "bad".data)] =
      some "bad".data ∧
     parseMime "bad".data = none ∧
     render_body (fun b => some b) [("Content-Type".data, "bad".data)]
       "x".data = none) ∧
    (get_content_type [("Content-Type".data, "application/json".data)] =
      some (some ⟨"application/json".data, []⟩) ∧
     (fun (_ : Str) => (none : Option Str)) "x".data = none ∧
     render_body (fun _ => none)
       [("Content-Type".data, "application/json".data)] "x".data = none) :=
  ⟨⟨by decide, by decide,
    (render_body_fatal (fun b => some b)
      [("Content-Type".data, "bad".data)] "x".data).1
      "bad".data (by decide) (by decide)⟩,
   ⟨by decide, rfl,
    (render_body_fatal (fun _ => none)
      [("Content-Type".data, "application/json".data)] "x".data).2
      ⟨"application/json".data, []⟩ (by decide) (by decide) rfl⟩⟩
